import Mathlib

/-!
Shallow embedding of the deep-research repository core: the prompt
trimming algorithm (trimPrompt) of the providers module, the recursive
research orchestrator (deepResearch) with its planner and synthesizer
wrappers, a transition system for the per-invocation concurrency
limiter, and the shell command construction of the content retriever.
Text is modelled as List Char; JS string.slice(0, k) for k at least 0 is
List.take k; machine numbers are Nat or Int.
-/

namespace DeepResearchSpec

/-! ## Definitions: text budgeter (providers module) -/

/-- The constant MinChunkSize = 140 from the providers module. -/
def MinChunkSize : Nat := 140

/-- Separator test of the modelled splitter: paragraph/sentence/word
boundaries are all whitespace-delimited, so a space or a newline marks a
split point. -/
def isSep (c : Char) : Bool := c == ' ' || c == '\n'

/-- Position just after the last separator character of a list, if any. -/
def lastSepEnd : List Char → Option Nat
  | [] => none
  | c :: rest =>
    match lastSepEnd rest with
    | some j => some (j + 1)
    | none => if isSep c then some 1 else none

/-- Modelled from the spec: the source imports
RecursiveCharacterTextSplitter from ./text-splitter, a file not among
the provided sources. Following spec section 4.1, the text is split into
chunks targeting chunkSize characters with zero overlap, preferring
paragraph / sentence / word boundaries and falling back to raw character
cuts; splitText(prompt)[0] (with [] giving the empty string) is modelled
as this first chunk: the first chunkSize characters, cut back to the
last whitespace boundary within them when one exists. -/
def splitFirst (chunkSize : Nat) (s : List Char) : List Char :=
  if s.length ≤ chunkSize then s
  else
    let raw := s.take chunkSize
    match lastSepEnd raw with
    | some j => raw.take j
    | none => raw

/-- Shallow embedding of trimPrompt from the providers module,
parameterized by the token-counting encoder enc (the source uses the
o200k_base encoding of js-tiktoken; spec section 9 allows any
deterministic counter). In JS, chunkSize = prompt.length -
overflowTokens * 3 can be negative; Nat subtraction truncates at zero,
which selects the same branch because every negative value is below
MinChunkSize. -/
def trimPrompt (enc : List Char → Nat) (prompt : List Char)
    (contextSize : Nat) : List Char :=
  if hemp : prompt = [] then []
  else if htok : enc prompt ≤ contextSize then prompt
  else
    let overflowTokens := enc prompt - contextSize
    let chunkSize := prompt.length - overflowTokens * 3
    if hchunk : chunkSize < MinChunkSize then prompt.take MinChunkSize
    else
      let trimmedPrompt := splitFirst chunkSize prompt
      if hsame : trimmedPrompt.length = prompt.length then
        trimPrompt enc (prompt.take chunkSize) contextSize
      else
        trimPrompt enc trimmedPrompt contextSize
termination_by prompt.length
decreasing_by
  · have h1 : 0 < prompt.length := by
      cases prompt with
      | nil => exact absurd rfl hemp
      | cons a l => simp
    have h2 : 1 ≤ enc prompt - contextSize := by omega
    simp only [List.length_take]
    omega
  · have h1 : 0 < prompt.length := by
      cases prompt with
      | nil => exact absurd rfl hemp
      | cons a l => simp
    have h2 : 1 ≤ enc prompt - contextSize := by omega
    have h3 : (splitFirst (prompt.length - (enc prompt - contextSize) * 3)
        prompt).length ≤ prompt.length - (enc prompt - contextSize) * 3 := by
      unfold splitFirst
      by_cases hsp :
          prompt.length ≤ prompt.length - (enc prompt - contextSize) * 3
      · simp [hsp]
      · simp only [hsp, if_false]
        cases lastSepEnd
            (prompt.take (prompt.length - (enc prompt - contextSize) * 3)) with
        | some j => simp only [List.length_take]; omega
        | none => simp only [List.length_take]; omega
    omega

/-- Fuel-indexed transcription of the same recursion: trimPromptFuel
enc fuel prompt contextSize makes at most fuel nested calls and returns
none if the fuel runs out before the recursion bottoms out. It makes
the termination claim about trimPrompt statable as: fuel equal to the
input length plus one always suffices. -/
def trimPromptFuel (enc : List Char → Nat) :
    Nat → List Char → Nat → Option (List Char)
  | 0, _, _ => none
  | fuel + 1, prompt, contextSize =>
    if prompt = [] then some []
    else if enc prompt ≤ contextSize then some prompt
    else if prompt.length - (enc prompt - contextSize) * 3 < MinChunkSize
      then some (prompt.take MinChunkSize)
    else if (splitFirst (prompt.length - (enc prompt - contextSize) * 3)
        prompt).length = prompt.length then
      trimPromptFuel enc fuel
        (prompt.take (prompt.length - (enc prompt - contextSize) * 3))
        contextSize
    else
      trimPromptFuel enc fuel
        (splitFirst (prompt.length - (enc prompt - contextSize) * 3) prompt)
        contextSize

/-- A concrete deterministic token counter used for witnesses: one
token per character (spec section 9 allows any deterministic counter). -/
def charCountEnc : List Char → Nat := List.length

/-! ## Definitions: research orchestrator (deep-research module) -/

/-- A planned query: the pair produced by generateSerpQueries. -/
structure SerpQuery where
  query : String
  researchGoal : String
deriving DecidableEq, Repr

/-- One retrieved content item: in the source, item.content together
with item.metadata.sourceURL. -/
structure ContentItem where
  content : String
  sourceURL : String
deriving DecidableEq, Repr

/-- The recursion accumulator and final output of deepResearch. -/
structure ResearchResult where
  learnings : List String
  visitedUrls : List String
deriving DecidableEq, Repr

/-- The object the structured-generation call of processSerpResult
yields: followUpQuestions is optional in the zod schema. -/
structure LearnObj where
  learnings : List String
  followUpQuestions : Option (List String)
deriving DecidableEq, Repr

/-- One item of the queries array of generateSerpQueries: the zod
schema is a union of a bare string and a query/researchGoal object. -/
inductive QueryItem
  | strq (s : String)
  | objq (q : SerpQuery)
deriving DecidableEq, Repr

/-- The opaque external collaborators, modelled as deterministic
functions of the arguments the source passes them: the structured
generation behind generateSerpQueries, the python crawler process
(exec plus JSON.parse collapsed into one fallible call), the structured
generation behind processSerpResult, and the token encoder used by
trimPrompt inside processSerpResult. -/
structure Oracles where
  genQueriesObj : String → List String → Int → Except String (List QueryItem)
  crawlExec : String → Except String (List ContentItem)
  genLearningsObj : String → List (List Char) → Int → Int →
    Except String LearnObj
  encLen : List Char → Nat

/-- The constant ConcurrencyLimit = 2 of the deep-research module. -/
def ConcurrencyLimit : Nat := 2

/-- JS Array.prototype.slice(0, n): a negative end counts back from the
end of the array. -/
def jsSliceToEnd (n : Int) (l : List α) : List α :=
  if n < 0 then l.take (l.length - (-n).toNat) else l.take n.toNat

/-- The default researchGoal substituted for bare string queries in
generateSerpQueries. -/
def defaultResearchGoal : String :=
  "Explore this query to gather relevant information for the research topic."

/-- Embedding of generateSerpQueries: delegate to the structured
generation, normalize bare strings to query/researchGoal pairs, and
truncate with slice(0, numQueries). A generation failure propagates. -/
def generateSerpQueries (O : Oracles) (query : String) (numQueries : Int)
    (learnings : List String) : Except String (List SerpQuery) :=
  match O.genQueriesObj query learnings numQueries with
  | .error e => .error e
  | .ok items =>
    .ok (jsSliceToEnd numQueries (items.map (fun item =>
      match item with
      | .strq s => { query := s, researchGoal := defaultResearchGoal }
      | .objq q => q)))

/-- Embedding of crawlWebsite: the source catches both the exec error
and the JSON parse error and returns an empty list, so the function
never raises. -/
def crawlWebsite (O : Oracles) (query : String) : List ContentItem :=
  match O.crawlExec query with
  | .ok items => items
  | .error _ => []

/-- Output shape of processSerpResult. -/
structure SynthOut where
  learnings : List String
  followUpQuestions : List String
deriving DecidableEq, Repr

/-- Embedding of processSerpResult: each item content is pre-trimmed
with trimPrompt to 25000 tokens, the structured generation is
delegated to (a failure or timeout propagates), and an absent
followUpQuestions field becomes the empty list. The learnings list is
returned as generated. -/
def processSerpResult (O : Oracles) (query : String)
    (result : List ContentItem) (numLearnings numFollowUpQuestions : Int) :
    Except String SynthOut :=
  match O.genLearningsObj query
      (result.map (fun item => trimPrompt O.encLen item.content.data 25000))
      numLearnings numFollowUpQuestions with
  | .error e => .error e
  | .ok obj => .ok ⟨obj.learnings, obj.followUpQuestions.getD []⟩

/-- Math.ceil(breadth / 2) on an integer breadth: real division then
ceiling. -/
def ceilHalf (b : Int) : Int := ⌈(b : ℚ) / 2⌉

/-- JS whitespace test for String.prototype.trim. -/
def isJsWs (c : Char) : Bool := c == ' ' || c == '\n' || c == '\t' || c == '\r'

/-- JS String.prototype.trim. -/
def jsTrim (s : String) : String :=
  ⟨((s.data.dropWhile isJsWs).reverse.dropWhile isJsWs).reverse⟩

/-- The composite next topic a recursing branch builds: the template
literal with the previous research goal and follow-up directions,
trimmed of surrounding whitespace. -/
def nextQueryString (sq : SerpQuery) (followUps : List String) : String :=
  jsTrim ("\n            Previous research goal: " ++ sq.researchGoal ++
    "\n            Follow-up research directions: " ++
    String.join (followUps.map (fun q => "\n" ++ q)) ++ "\n          ")

/-- First-occurrence deduplication with an accumulator of already seen
entries: the observable content of JS spreading a Set of strings. -/
def jsSetDedupAux : List String → List String → List String
  | _, [] => []
  | seen, x :: xs =>
    if x ∈ seen then jsSetDedupAux seen xs
    else x :: jsSetDedupAux (x :: seen) xs

/-- [...new Set(l)]. -/
def jsSetDedup (l : List String) : List String := jsSetDedupAux [] l

/-- results.flatMap over research results. -/
def flatMapResults (f : ResearchResult → List String) :
    List ResearchResult → List String
  | [] => []
  | r :: rs => f r ++ flatMapResults f rs

/-- The per-branch work preceding the recurse-or-terminate decision:
retrieve content (never raises), synthesize learnings (may raise,
propagated to the branch boundary), and merge with the learnings and
visitedUrls passed into the whole call. Returns the merged learnings,
merged urls and the follow-up questions. -/
def branchPrep (O : Oracles) (sq : SerpQuery) (breadth : Int)
    (learnings visitedUrls : List String) :
    Except String (List String × List String × List String) :=
  let result := crawlWebsite O sq.query
  match processSerpResult O sq.query result 3 (ceilHalf breadth) with
  | .error e => .error e
  | .ok newLearnings =>
    .ok (learnings ++ newLearnings.learnings,
         visitedUrls ++ result.map (fun item => item.sourceURL),
         newLearnings.followUpQuestions)

/-- Embedding of deepResearch. Depth is a Nat: the source decrements
depth and recurses only when depth - 1 > 0, so every nonpositive depth
behaves like depth 0 (terminal) and the Nat model is observationally
faithful. Each mapped entry is one branch task; a failure inside the
branch (synthesis failure, or a planning failure inside the recursive
call) is absorbed into an empty result for that branch alone, mirroring
the try/catch at the branch boundary. Both final lists are
deduplicated with Set semantics. -/
def deepResearch (O : Oracles) : Nat → String → Int → List String →
    List String → Except String ResearchResult
  | depth, query, breadth, learnings, visitedUrls =>
    match generateSerpQueries O query breadth learnings with
    | .error e => .error e
    | .ok serpQueries =>
      let results := serpQueries.map (fun sq =>
        match branchPrep O sq breadth learnings visitedUrls with
        | .error _ => ({ learnings := [], visitedUrls := [] } : ResearchResult)
        | .ok (allLearnings, allUrls, followUps) =>
          match depth with
          | 0 => ⟨allLearnings, allUrls⟩
          | d + 1 =>
            if 0 < d then
              match deepResearch O d (nextQueryString sq followUps)
                  (ceilHalf breadth) allLearnings allUrls with
              | .ok r => r
              | .error _ => ⟨[], []⟩
            else ⟨allLearnings, allUrls⟩)
      .ok ⟨jsSetDedup (flatMapResults (fun r => r.learnings) results),
           jsSetDedup (flatMapResults (fun r => r.visitedUrls) results)⟩

/-- The fallible body of one branch task (the code inside the try):
prep, then recurse when the decremented depth is still positive, else
terminate with the merged accumulators. -/
def branchTry (O : Oracles) (sq : SerpQuery) (breadth : Int) (depth : Nat)
    (learnings visitedUrls : List String) : Except String ResearchResult :=
  match branchPrep O sq breadth learnings visitedUrls with
  | .error e => .error e
  | .ok (allLearnings, allUrls, followUps) =>
    match depth with
    | 0 => .ok ⟨allLearnings, allUrls⟩
    | d + 1 =>
      if 0 < d then
        deepResearch O d (nextQueryString sq followUps) (ceilHalf breadth)
          allLearnings allUrls
      else .ok ⟨allLearnings, allUrls⟩

/-- One branch task with its boundary catch: any error inside the body
is converted to the empty result for this branch only. -/
def branchRun (O : Oracles) (sq : SerpQuery) (breadth : Int) (depth : Nat)
    (learnings visitedUrls : List String) : ResearchResult :=
  match branchTry O sq breadth depth learnings visitedUrls with
  | .ok r => r
  | .error _ => ⟨[], []⟩

/-- Decides whether an invocation of deepResearch has, at every level
along at least one branch, a successfully completing branch: the
planner call succeeds and some planned branch completes its synthesis
and, if it recurses, reaches an invocation that again satisfies this
predicate. Under this condition the superset invariant on the
accumulators holds. -/
def invPreserves (O : Oracles) : Nat → String → Int → List String →
    List String → Bool
  | depth, query, breadth, learnings, visitedUrls =>
    match generateSerpQueries O query breadth learnings with
    | .error _ => false
    | .ok serpQueries =>
      serpQueries.any (fun sq =>
        match branchPrep O sq breadth learnings visitedUrls with
        | .error _ => false
        | .ok (allLearnings, allUrls, followUps) =>
          match depth with
          | 0 => true
          | d + 1 =>
            if 0 < d then
              invPreserves O d (nextQueryString sq followUps)
                (ceilHalf breadth) allLearnings allUrls
            else true)

/-! ## Definitions: concrete oracles for witnesses and counterexamples -/

/-- An oracle whose planner returns zero queries. -/
def oracleNoQueries : Oracles where
  genQueriesObj := fun _ _ _ => .ok []
  crawlExec := fun _ => .ok []
  genLearningsObj := fun _ _ _ _ => .ok ⟨[], none⟩
  encLen := fun l => l.length

/-- An oracle whose synthesis call always fails (e.g. the 60 second
timeout fires). -/
def oracleFailSynth : Oracles where
  genQueriesObj := fun _ _ _ => .ok [.objq ⟨"q1", "g1"⟩]
  crawlExec := fun _ => .ok []
  genLearningsObj := fun _ _ _ _ => .error "timeout"
  encLen := fun l => l.length

/-- An oracle whose planner call itself fails. -/
def oraclePlanFail : Oracles where
  genQueriesObj := fun _ _ _ => .error "planfail"
  crawlExec := fun _ => .ok []
  genLearningsObj := fun _ _ _ _ => .ok ⟨[], none⟩
  encLen := fun l => l.length

/-- An oracle for a one-query happy path. -/
def oracleHappy : Oracles where
  genQueriesObj := fun _ _ _ => .ok [.objq ⟨"q1", "g1"⟩]
  crawlExec := fun _ => .ok [⟨"content", "http://s"⟩]
  genLearningsObj := fun _ _ _ _ => .ok ⟨["n1"], some ["f1"]⟩
  encLen := fun l => l.length

/-- An oracle whose synthesis call returns four learnings. -/
def oracleManyLearnings : Oracles where
  genQueriesObj := fun _ _ _ => .ok []
  crawlExec := fun _ => .ok []
  genLearningsObj := fun _ _ _ _ => .ok ⟨["l1", "l2", "l3", "l4"], none⟩
  encLen := fun l => l.length

/-! ## Definitions: the crawl shell command (crawlWebsite line 23) -/

/-- The shell command string crawlWebsite hands to exec: the query is
interpolated verbatim between two double-quote characters, with no
escaping. -/
def buildCommand (query : List Char) : List Char :=
  "python3 duckduckgo-crawler/crawl.py \"".data ++ query ++ "\"".data

/-- A minimal model of POSIX shell field splitting for the command
string: an unquoted space separates fields, a double-quote character
toggles quoted mode (and marks the field as started, so an empty
quoted string still yields a field), and every other character is
literal. The flag started records whether the current field has begun. -/
def shTokens : Bool → Bool → List Char → List Char → List (List Char)
  | inQuote, started, cur, [] =>
    if started || inQuote then [cur] else []
  | false, started, cur, c :: rest =>
    if c = ' ' then
      (if started then cur :: shTokens false false [] rest
       else shTokens false false [] rest)
    else if c = '"' then shTokens true true cur rest
    else shTokens false true (cur ++ [c]) rest
  | true, _, cur, c :: rest =>
    if c = '"' then shTokens false true cur rest
    else shTokens true true (cur ++ [c]) rest

/-- The argv-like field structure the shell derives from a command
string. -/
def shellFields (cmd : List Char) : List (List Char) :=
  shTokens false false [] cmd

/-- The characters of the command on which the shell performs command
or parameter substitution: dollar and backtick stay active even inside
double quotes (the command contains no single quotes). -/
def substChars (cmd : List Char) : List Char :=
  cmd.filter (fun c => c == '$' || c == Char.ofNat 96)

/-! ## Definitions: concurrency limiter transition system -/

/-- The constant ConcurrencyLimit is declared above; this transition
system models the admission control of deepResearch("topic",
breadth = 2, depth = 2) whose planner returns two queries. The
top-level invocation P creates pLimit(2) (line 214) and maps its two
branch tasks p0, p1 through it; each branch task, while still in
flight, recurses (newBreadth = ceil(2/2) = 1, newDepth = 1) into a
child invocation that evaluates pLimit(2) afresh and admits its single
branch task (c0 resp. c1) through that fresh limiter. Lifecycle of one
branch task: -/
inductive TaskPhase
  | pending
  | running
  | done
deriving DecidableEq, Repr, Fintype

/-- Phases of the four branch tasks of the scenario. -/
structure LimiterConfig where
  p0 : TaskPhase
  p1 : TaskPhase
  c0 : TaskPhase
  c1 : TaskPhase
deriving DecidableEq, Repr, Fintype

/-- All four tasks pending. -/
def initConfig : LimiterConfig := ⟨.pending, .pending, .pending, .pending⟩

/-- How many of two task phases are in flight. -/
def countRunning (a b : TaskPhase) : Nat :=
  (if a = .running then 1 else 0) + (if b = .running then 1 else 0)

/-- Tasks in flight that were admitted by the own limiter of the top-level
invocation. -/
def parentRunning (cfg : LimiterConfig) : Nat :=
  countRunning cfg.p0 cfg.p1

/-- Branch tasks in flight across the whole call tree. -/
def inFlight (cfg : LimiterConfig) : Nat :=
  countRunning cfg.p0 cfg.p1 + countRunning cfg.c0 cfg.c1

/-- The events of the cooperative scheduler: a limiter admitting a
pending task, or an in-flight task settling. -/
inductive LimiterAct
  | startP0
  | startP1
  | startC0
  | startC1
  | finishP0
  | finishP1
  | finishC0
  | finishC1
deriving DecidableEq, Repr, Fintype

/-- One cooperative step. Guards: a top-level task starts only while
the top-level limiter has capacity (parentRunning < ConcurrencyLimit);
a child task starts only while its parent branch task is in flight
(the child invocation lives inside the parent branch body) and the
fresh limiter of the child invocation has capacity; a parent branch task
settles only after its child task is done (the branch awaits the
recursive call); a child task can settle any time it runs. -/
def limiterStep (cfg : LimiterConfig) : LimiterAct → Option LimiterConfig
  | .startP0 =>
    if cfg.p0 = .pending ∧ parentRunning cfg < ConcurrencyLimit then
      some { cfg with p0 := .running } else none
  | .startP1 =>
    if cfg.p1 = .pending ∧ parentRunning cfg < ConcurrencyLimit then
      some { cfg with p1 := .running } else none
  | .startC0 =>
    if cfg.c0 = .pending ∧ cfg.p0 = .running ∧
        (if cfg.c0 = .running then 1 else 0) < ConcurrencyLimit then
      some { cfg with c0 := .running } else none
  | .startC1 =>
    if cfg.c1 = .pending ∧ cfg.p1 = .running ∧
        (if cfg.c1 = .running then 1 else 0) < ConcurrencyLimit then
      some { cfg with c1 := .running } else none
  | .finishP0 =>
    if cfg.p0 = .running ∧ cfg.c0 = .done then
      some { cfg with p0 := .done } else none
  | .finishP1 =>
    if cfg.p1 = .running ∧ cfg.c1 = .done then
      some { cfg with p1 := .done } else none
  | .finishC0 =>
    if cfg.c0 = .running then some { cfg with c0 := .done } else none
  | .finishC1 =>
    if cfg.c1 = .running then some { cfg with c1 := .done } else none

/-- Run a list of events from a configuration; none if the guard of some
event is violated. -/
def runTrace : LimiterConfig → List LimiterAct → Option LimiterConfig
  | cfg, [] => some cfg
  | cfg, a :: rest =>
    match limiterStep cfg a with
    | none => none
    | some cfg2 => runTrace cfg2 rest

/-- Whether one step out of cfg keeps the top-level limiter occupancy
within its capacity. -/
def stepOk (cfg : LimiterConfig) (a : LimiterAct) : Bool :=
  match limiterStep cfg a with
  | none => true
  | some cfg2 => decide (parentRunning cfg2 ≤ ConcurrencyLimit)

end DeepResearchSpec

namespace DeepResearchSpec

/-! ## Theorems: text budgeter -/

theorem lastSepEnd_bounds (l : List Char) (j : Nat)
    (h : lastSepEnd l = some j) : 1 ≤ j ∧ j ≤ l.length := by
  induction l generalizing j with
  | nil => simp [lastSepEnd] at h
  | cons c rest ih =>
    simp only [lastSepEnd] at h
    cases hrec : lastSepEnd rest with
    | some k =>
      rw [hrec] at h
      have := ih k hrec
      simp only [Option.some.injEq] at h
      subst h
      simp only [List.length_cons]
      omega
    | none =>
      rw [hrec] at h
      by_cases hc : isSep c
      · simp [hc] at h
        subst h
        simp only [List.length_cons]
        omega
      · simp [hc] at h

theorem splitFirst_length_le (k : Nat) (s : List Char) :
    (splitFirst k s).length ≤ k := by
  unfold splitFirst
  by_cases h : s.length ≤ k
  · simp [h]
  · simp only [h, if_false]
    cases hsep : lastSepEnd (s.take k) with
    | some j =>
      simp only [List.length_take]
      omega
    | none =>
      simp only [List.length_take]
      omega

theorem splitFirst_ne_nil (k : Nat) (s : List Char)
    (hs : s ≠ []) (hk : 0 < k) : splitFirst k s ≠ [] := by
  unfold splitFirst
  by_cases h : s.length ≤ k
  · simpa [h] using hs
  · simp only [h, if_false]
    have hraw : (s.take k).length = k := by
      simp only [List.length_take]
      omega
    cases hsep : lastSepEnd (s.take k) with
    | some j =>
      have hb := lastSepEnd_bounds _ _ hsep
      intro hcon
      have hcon2 : (s.take k).take j = [] := hcon
      have : ((s.take k).take j).length = 0 := by rw [hcon2]; rfl
      simp only [List.length_take] at this
      omega
    | none =>
      intro hcon
      have hcon2 : s.take k = [] := hcon
      have : (s.take k).length = 0 := by rw [hcon2]; rfl
      omega

/-- One-step unfolding of trimPrompt with the let bindings inlined. -/
theorem trimPrompt_eq (enc : List Char → Nat) (s : List Char) (n : Nat) :
    trimPrompt enc s n =
      if s = [] then []
      else if enc s ≤ n then s
      else if s.length - (enc s - n) * 3 < MinChunkSize then
        s.take MinChunkSize
      else if (splitFirst (s.length - (enc s - n) * 3) s).length = s.length
        then trimPrompt enc (s.take (s.length - (enc s - n) * 3)) n
      else trimPrompt enc (splitFirst (s.length - (enc s - n) * 3) s) n := by
  rw [trimPrompt]
  simp only [dite_eq_ite]

theorem take_ne_nil_of_ne_nil (k : Nat) (s : List Char)
    (hs : s ≠ []) (hk : 0 < k) : s.take k ≠ [] := by
  cases s with
  | nil => exact absurd rfl hs
  | cons a l =>
    cases k with
    | zero => omega
    | succ m => simp

theorem trimPrompt_nil (enc : List Char → Nat) (n : Nat) :
    trimPrompt enc [] n = [] := by
  rw [trimPrompt_eq]
  simp

theorem trimPrompt_id_of_le (enc : List Char → Nat) (s : List Char)
    (n : Nat) (h : enc s ≤ n) : trimPrompt enc s n = s := by
  rw [trimPrompt_eq]
  by_cases hemp : s = []
  · simp [hemp]
  · rw [if_neg hemp, if_pos h]

/-- Any text of length at most MinChunkSize is a fixed point of
trimPrompt: either the identity case fires, or the computed chunkSize
falls below the floor and the first MinChunkSize characters are the
whole text. -/
theorem trimPrompt_fix_of_short (enc : List Char → Nat) (n : Nat)
    (r : List Char) (hr : r.length ≤ MinChunkSize) :
    trimPrompt enc r n = r := by
  rw [trimPrompt_eq]
  by_cases hemp : r = []
  · simp [hemp]
  · rw [if_neg hemp]
    by_cases htok : enc r ≤ n
    · rw [if_pos htok]
    · rw [if_neg htok]
      have hk : 1 ≤ enc r - n := by omega
      have hcs : r.length - (enc r - n) * 3 < MinChunkSize := by
        simp only [MinChunkSize] at hr ⊢
        omega
      rw [if_pos hcs]
      exact List.take_of_length_le hr

theorem trimPrompt_ne_nil (enc : List Char → Nat) (n : Nat) :
    ∀ s : List Char, s ≠ [] → trimPrompt enc s n ≠ [] := by
  have H : ∀ m, ∀ s : List Char, s.length ≤ m → s ≠ [] →
      trimPrompt enc s n ≠ [] := by
    intro m
    induction m with
    | zero =>
      intro s hle hs
      cases s with
      | nil => exact absurd rfl hs
      | cons a l => simp at hle
    | succ m ih =>
      intro s hle hs
      rw [trimPrompt_eq, if_neg hs]
      by_cases htok : enc s ≤ n
      · rw [if_pos htok]; exact hs
      · rw [if_neg htok]
        by_cases hcs : s.length - (enc s - n) * 3 < MinChunkSize
        · rw [if_pos hcs]
          exact take_ne_nil_of_ne_nil _ _ hs (by simp [MinChunkSize])
        · rw [if_neg hcs]
          have hlen0 : 0 < s.length := List.length_pos.mpr hs
          have hov : 1 ≤ enc s - n := by omega
          have hlt : s.length - (enc s - n) * 3 < s.length := by omega
          have hsp := splitFirst_length_le (s.length - (enc s - n) * 3) s
          by_cases hsame :
              (splitFirst (s.length - (enc s - n) * 3) s).length = s.length
          · rw [if_pos hsame]
            apply ih
            · simp only [List.length_take]; omega
            · exact take_ne_nil_of_ne_nil _ _ hs
                (by simp only [MinChunkSize] at hcs; omega)
          · rw [if_neg hsame]
            apply ih
            · omega
            · exact splitFirst_ne_nil _ _ hs
                (by simp only [MinChunkSize] at hcs; omega)
  intro s
  exact H s.length s le_rfl

theorem trimPrompt_idem_aux (enc : List Char → Nat) (n : Nat) :
    ∀ m, ∀ s : List Char, s.length ≤ m →
      trimPrompt enc (trimPrompt enc s n) n = trimPrompt enc s n := by
  intro m
  induction m with
  | zero =>
    intro s hle
    have hnil : s = [] := by
      cases s with
      | nil => rfl
      | cons a l => simp at hle
    rw [hnil, trimPrompt_nil, trimPrompt_nil]
  | succ m ih =>
    intro s hle
    by_cases hemp : s = []
    · rw [hemp, trimPrompt_nil, trimPrompt_nil]
    · by_cases htok : enc s ≤ n
      · rw [trimPrompt_id_of_le enc s n htok, trimPrompt_id_of_le enc s n htok]
      · by_cases hcs : s.length - (enc s - n) * 3 < MinChunkSize
        · have hres : trimPrompt enc s n = s.take MinChunkSize := by
            rw [trimPrompt_eq, if_neg hemp, if_neg htok, if_pos hcs]
          rw [hres]
          apply trimPrompt_fix_of_short
          simp only [List.length_take]
          omega
        · have hlen0 : 0 < s.length := List.length_pos.mpr hemp
          have hov : 1 ≤ enc s - n := by omega
          have hlt : s.length - (enc s - n) * 3 < s.length := by omega
          have hsp := splitFirst_length_le (s.length - (enc s - n) * 3) s
          by_cases hsame :
              (splitFirst (s.length - (enc s - n) * 3) s).length = s.length
          · have hres : trimPrompt enc s n =
                trimPrompt enc (s.take (s.length - (enc s - n) * 3)) n := by
              rw [trimPrompt_eq, if_neg hemp, if_neg htok, if_neg hcs,
                if_pos hsame]
            rw [hres]
            apply ih
            simp only [List.length_take]
            omega
          · have hres : trimPrompt enc s n =
                trimPrompt enc (splitFirst (s.length - (enc s - n) * 3) s) n := by
              rw [trimPrompt_eq, if_neg hemp, if_neg htok, if_neg hcs,
                if_neg hsame]
            rw [hres]
            apply ih
            omega

theorem trimPromptFuel_agrees (enc : List Char → Nat) (n : Nat) :
    ∀ k, ∀ s : List Char, s.length < k →
      trimPromptFuel enc k s n = some (trimPrompt enc s n) := by
  intro k
  induction k with
  | zero => intro s h; omega
  | succ k ih =>
    intro s h
    rw [trimPromptFuel]
    by_cases hemp : s = []
    · rw [if_pos hemp, hemp, trimPrompt_nil]
    · rw [if_neg hemp]
      by_cases htok : enc s ≤ n
      · rw [if_pos htok, trimPrompt_id_of_le enc s n htok]
      · rw [if_neg htok]
        by_cases hcs : s.length - (enc s - n) * 3 < MinChunkSize
        · rw [if_pos hcs, trimPrompt_eq, if_neg hemp, if_neg htok, if_pos hcs]
        · rw [if_neg hcs]
          have hlen0 : 0 < s.length := List.length_pos.mpr hemp
          have hov : 1 ≤ enc s - n := by omega
          have hlt : s.length - (enc s - n) * 3 < s.length := by omega
          have hsp := splitFirst_length_le (s.length - (enc s - n) * 3) s
          by_cases hsame :
              (splitFirst (s.length - (enc s - n) * 3) s).length = s.length
          · have hres : trimPrompt enc s n =
                trimPrompt enc (s.take (s.length - (enc s - n) * 3)) n := by
              rw [trimPrompt_eq, if_neg hemp, if_neg htok, if_neg hcs,
                if_pos hsame]
            rw [if_pos hsame, hres]
            exact ih _ (by simp only [List.length_take]; omega)
          · have hres : trimPrompt enc s n =
                trimPrompt enc (splitFirst (s.length - (enc s - n) * 3) s) n := by
              rw [trimPrompt_eq, if_neg hemp, if_neg htok, if_neg hcs,
                if_neg hsame]
            rw [if_neg hsame, hres]
            exact ih _ (by omega)

/-- C4: for every non-empty text and token budget n, if the estimated
token length of the text under the deterministic encoder is at most n,
trimPrompt returns the text exactly unchanged. -/
theorem trimPrompt_identity (enc : List Char → Nat) (s : List Char)
    (n : Nat) (hs : s ≠ []) (h : enc s ≤ n) : trimPrompt enc s n = s :=
  trimPrompt_id_of_le enc s n h

/-- Witness for trimPrompt_identity at a concrete input. -/
theorem trimPrompt_identity_witness :
    trimPrompt charCountEnc ['a', 'b', 'c'] 10 = ['a', 'b', 'c'] :=
  trimPrompt_identity charCountEnc ['a', 'b', 'c'] 10 (by decide) (by decide)

/-- C5: trimPrompt terminates: every recursive call strictly shrinks
the input, so fuel equal to the input length plus one always suffices
for the fuel-indexed transcription to reach a result, and that result
is the one trimPrompt computes. -/
theorem trimPrompt_terminates (enc : List Char → Nat) (s : List Char)
    (n : Nat) :
    trimPromptFuel enc (s.length + 1) s n = some (trimPrompt enc s n) :=
  trimPromptFuel_agrees enc n (s.length + 1) s (by omega)

/-- C6: trimPrompt is idempotent: applying it to its own output with
the same budget returns that output unchanged. -/
theorem trimPrompt_idempotent (enc : List Char → Nat) (s : List Char)
    (n : Nat) :
    trimPrompt enc (trimPrompt enc s n) n = trimPrompt enc s n :=
  trimPrompt_idem_aux enc n s.length s le_rfl

/-- C7: for non-empty input the output of trimPrompt is non-empty, and
when the computed chunkSize falls below the MinChunkSize floor the
result is exactly the first MinChunkSize characters of the input. -/
theorem trimPrompt_nonempty (enc : List Char → Nat) (s : List Char)
    (n : Nat) (hs : s ≠ []) :
    trimPrompt enc s n ≠ [] ∧
      (¬ enc s ≤ n → s.length - (enc s - n) * 3 < MinChunkSize →
        trimPrompt enc s n = s.take MinChunkSize) := by
  refine ⟨trimPrompt_ne_nil enc n s hs, fun htok hcs => ?_⟩
  rw [trimPrompt_eq, if_neg hs, if_neg htok, if_pos hcs]

/-- Witness for trimPrompt_nonempty at a concrete input hitting the
MinChunkSize floor. -/
theorem trimPrompt_nonempty_witness :
    trimPrompt charCountEnc (List.replicate 150 'x') 0 ≠ [] ∧
      trimPrompt charCountEnc (List.replicate 150 'x') 0 =
        (List.replicate 150 'x').take MinChunkSize :=
  ⟨(trimPrompt_nonempty charCountEnc (List.replicate 150 'x') 0
      (by simp)).1,
   (trimPrompt_nonempty charCountEnc (List.replicate 150 'x') 0
      (by simp)).2 (by simp [charCountEnc])
      (by simp [charCountEnc, MinChunkSize])⟩

/-! ## Theorems: research orchestrator -/

theorem mem_jsSetDedupAux (x : String) :
    ∀ l seen, x ∈ l → x ∉ seen → x ∈ jsSetDedupAux seen l := by
  intro l
  induction l with
  | nil => intro seen h; simp at h
  | cons y ys ih =>
    intro seen hmem hseen
    rw [jsSetDedupAux]
    by_cases hy : y ∈ seen
    · rw [if_pos hy]
      rcases List.mem_cons.mp hmem with heq | hin
      · exact absurd (heq ▸ hy) hseen
      · exact ih seen hin hseen
    · rw [if_neg hy]
      rcases List.mem_cons.mp hmem with heq | hin
      · exact heq ▸ List.mem_cons_self x _
      · by_cases hxy : x = y
        · exact hxy ▸ List.mem_cons_self y _
        · exact List.mem_cons_of_mem y
            (ih (y :: seen) hin (by simp [hxy, hseen]))

theorem mem_jsSetDedup (x : String) (l : List String) (h : x ∈ l) :
    x ∈ jsSetDedup l :=
  mem_jsSetDedupAux x l [] h (by simp)

theorem mem_flatMapResults (f : ResearchResult → List String) (x : String) :
    ∀ l : List ResearchResult, ∀ r ∈ l, x ∈ f r → x ∈ flatMapResults f l := by
  intro l
  induction l with
  | nil => intro r h; simp at h
  | cons a as ih =>
    intro r hr hx
    rw [flatMapResults]
    rcases List.mem_cons.mp hr with heq | hin
    · exact List.mem_append_left _ (heq ▸ hx)
    · exact List.mem_append_right _ (ih r hin hx)

/-- The branch-with-catch function agrees with the branch body inlined
in deepResearch. -/
theorem branchRun_eq (O : Oracles) (sq : SerpQuery) (breadth : Int)
    (depth : Nat) (L U : List String) :
    branchRun O sq breadth depth L U =
      match branchPrep O sq breadth L U with
      | .error _ => ({ learnings := [], visitedUrls := [] } : ResearchResult)
      | .ok (allLearnings, allUrls, followUps) =>
        match depth with
        | 0 => ⟨allLearnings, allUrls⟩
        | d + 1 =>
          if 0 < d then
            match deepResearch O d (nextQueryString sq followUps)
                (ceilHalf breadth) allLearnings allUrls with
            | .ok r => r
            | .error _ => ⟨[], []⟩
          else ⟨allLearnings, allUrls⟩ := by
  unfold branchRun branchTry
  cases hp : branchPrep O sq breadth L U with
  | error e => rfl
  | ok t =>
    obtain ⟨aL, aU, fu⟩ := t
    cases depth with
    | zero => rfl
    | succ d =>
      by_cases hd : 0 < d
      · simp only [if_pos hd]
      · simp only [if_neg hd]

/-- deepResearch unfolded through branchRun: the planner failure
propagates, and otherwise the result is the set-deduplicated union of
the independently computed branch results. -/
theorem deepResearch_run (O : Oracles) (depth : Nat) (query : String)
    (breadth : Int) (L U : List String) :
    deepResearch O depth query breadth L U =
      match generateSerpQueries O query breadth L with
      | .error e => .error e
      | .ok serpQueries =>
        .ok ⟨jsSetDedup (flatMapResults (fun r => r.learnings)
              (serpQueries.map (fun sq => branchRun O sq breadth depth L U))),
             jsSetDedup (flatMapResults (fun r => r.visitedUrls)
              (serpQueries.map (fun sq => branchRun O sq breadth depth L U)))⟩ := by
  rw [deepResearch]
  cases hq : generateSerpQueries O query breadth L with
  | error e => rfl
  | ok qs =>
    have hm : qs.map (fun sq => branchRun O sq breadth depth L U) =
        qs.map (fun sq =>
          match branchPrep O sq breadth L U with
          | .error _ =>
            ({ learnings := [], visitedUrls := [] } : ResearchResult)
          | .ok (allLearnings, allUrls, followUps) =>
            match depth with
            | 0 => ⟨allLearnings, allUrls⟩
            | d + 1 =>
              if 0 < d then
                match deepResearch O d (nextQueryString sq followUps)
                    (ceilHalf breadth) allLearnings allUrls with
                | .ok r => r
                | .error _ => ⟨[], []⟩
              else ⟨allLearnings, allUrls⟩) :=
      List.map_congr_left (fun sq _ => branchRun_eq O sq breadth depth L U)
    dsimp only
    rw [← hm]

/-- A successful branchPrep merges the input learnings and visitedUrls
into its accumulators. -/
theorem branchPrep_shape (O : Oracles) (sq : SerpQuery) (breadth : Int)
    (L U aL aU fu : List String)
    (h : branchPrep O sq breadth L U = .ok (aL, aU, fu)) :
    (∀ x ∈ L, x ∈ aL) ∧ (∀ u ∈ U, u ∈ aU) := by
  unfold branchPrep at h
  dsimp only at h
  cases hps : processSerpResult O sq.query (crawlWebsite O sq.query) 3
      (ceilHalf breadth) with
  | error e => rw [hps] at h; simp at h
  | ok nl =>
    rw [hps] at h
    simp only [Except.ok.injEq, Prod.mk.injEq] at h
    obtain ⟨hL, hU, _⟩ := h
    subst hL
    subst hU
    exact ⟨fun x hx => List.mem_append_left _ hx,
      fun u hu => List.mem_append_left _ hu⟩

/-- C9: any error raised inside a branch (synthesis failure or a
failure of the recursive call, including a nested planning failure) is
caught at the branch boundary and converted to the empty result for
that branch only; each branch result is computed independently of its
siblings and the overall call returns a result whenever the top-level
planner call succeeds, while a top-level planning failure propagates
uncaught. -/
theorem deepResearch_error_policy (O : Oracles) (depth : Nat)
    (query : String) (breadth : Int) (L U : List String) :
    (∀ e, generateSerpQueries O query breadth L = .error e →
      deepResearch O depth query breadth L U = .error e) ∧
    (∀ qs, generateSerpQueries O query breadth L = .ok qs →
      deepResearch O depth query breadth L U =
        .ok ⟨jsSetDedup (flatMapResults (fun r => r.learnings)
              (qs.map (fun sq => branchRun O sq breadth depth L U))),
             jsSetDedup (flatMapResults (fun r => r.visitedUrls)
              (qs.map (fun sq => branchRun O sq breadth depth L U)))⟩) ∧
    (∀ sq e, branchTry O sq breadth depth L U = .error e →
      branchRun O sq breadth depth L U = ⟨[], []⟩) := by
  refine ⟨fun e he => ?_, fun qs hqs => ?_, fun sq e hb => ?_⟩
  · rw [deepResearch_run, he]
  · rw [deepResearch_run, hqs]
  · unfold branchRun
    rw [hb]

/-- Witness for deepResearch_error_policy: a concrete top-level
planning failure propagates, and a concrete synthesis failure is
absorbed into an empty branch result. -/
theorem deepResearch_error_policy_witness :
    deepResearch oraclePlanFail 1 "t" 2 [] [] = .error "planfail" ∧
    branchRun oracleFailSynth ⟨"q1", "g1"⟩ 2 1 [] [] = ⟨[], []⟩ :=
  ⟨(deepResearch_error_policy oraclePlanFail 1 "t" 2 [] []).1 "planfail" rfl,
   (deepResearch_error_policy oracleFailSynth 1 "t" 2 [] []).2.2
     ⟨"q1", "g1"⟩ "timeout" rfl⟩

/-- C1 counterexample: with input learnings ["a"] and visitedUrls
["u"], a planner returning zero queries makes deepResearch return the
empty result, and a branch whose synthesis call fails returns the empty
result — neither contains the inputs, refuting the superset invariant
in exactly the failing-branch and zero-queries cases the claim
includes. -/
theorem deepResearch_superset_ce :
    deepResearch oracleNoQueries 2 "topic" 3 ["a"] ["u"] = .ok ⟨[], []⟩ ∧
    branchRun oracleFailSynth ⟨"q1", "g1"⟩ 3 2 ["a"] ["u"] = ⟨[], []⟩ ∧
    "a" ∈ (["a"] : List String) ∧ "a" ∉ ([] : List String) :=
  ⟨rfl, rfl, by simp, by simp⟩

/-- C3 counterexample: processSerpResult called with numLearnings = 3
returns all four learnings produced by the structured-generation call:
the maxLearnings bound is not enforced. -/
theorem processSerpResult_bound_ce :
    processSerpResult oracleManyLearnings "q" [] 3 3 =
      .ok ⟨["l1", "l2", "l3", "l4"], []⟩ ∧
    ¬ ((["l1", "l2", "l3", "l4"] : List String).length ≤ 3) :=
  ⟨rfl, by simp⟩

/-- C3 amended: processSerpResult returns exactly the learnings list
the structured-generation call produced, with an absent
followUpQuestions defaulted to the empty list; no truncation to
numLearnings is applied. -/
theorem processSerpResult_passthrough (O : Oracles) (query : String)
    (result : List ContentItem) (nl nf : Int) (obj : LearnObj)
    (h : O.genLearningsObj query
        (result.map (fun item => trimPrompt O.encLen item.content.data 25000))
        nl nf = .ok obj) :
    processSerpResult O query result nl nf =
      .ok ⟨obj.learnings, obj.followUpQuestions.getD []⟩ := by
  unfold processSerpResult
  rw [h]

/-- Witness for processSerpResult_passthrough at a concrete oracle. -/
theorem processSerpResult_passthrough_witness :
    processSerpResult oracleManyLearnings "q" [] 3 3 =
      .ok ⟨["l1", "l2", "l3", "l4"],
        (none : Option (List String)).getD []⟩ :=
  processSerpResult_passthrough oracleManyLearnings "q" [] 3 3
    ⟨["l1", "l2", "l3", "l4"], none⟩ rfl

/-- C8: the child budget is computed exactly as childBreadth =
ceil(breadth / 2) — equal to floor((breadth + 1) / 2) over the
integers, with the edge values 1, 2, 3, 7 evaluated — and childDepth =
depth - 1, and a branch recurses on the child budgets iff
childDepth > 0. -/
theorem childBudget_exact :
    (∀ b : Int, ceilHalf b = (b + 1) / 2) ∧
    (ceilHalf 1 = 1 ∧ ceilHalf 2 = 1 ∧ ceilHalf 3 = 2 ∧ ceilHalf 7 = 4) ∧
    (∀ (O : Oracles) (sq : SerpQuery) (breadth : Int) (dp : Nat)
      (L U aL aU fu : List String),
      branchPrep O sq breadth L U = .ok (aL, aU, fu) →
      branchTry O sq breadth dp L U =
        if 0 < (dp : Int) - 1 then
          deepResearch O (dp - 1) (nextQueryString sq fu) (ceilHalf breadth)
            aL aU
        else .ok ⟨aL, aU⟩) := by
  have hceil : ∀ b : Int, ceilHalf b = (b + 1) / 2 := by
    intro b
    rw [ceilHalf, Int.ceil_eq_iff]
    constructor
    · rw [lt_div_iff₀ (by norm_num : (0 : ℚ) < 2)]
      have h2 : ((b + 1) / 2 - 1) * 2 < b := by omega
      exact_mod_cast h2
    · rw [div_le_iff₀ (by norm_num : (0 : ℚ) < 2)]
      have h3 : b ≤ (b + 1) / 2 * 2 := by omega
      exact_mod_cast h3
  refine ⟨hceil, ⟨by rw [hceil]; decide, by rw [hceil]; decide,
    by rw [hceil]; decide, by rw [hceil]; decide⟩, ?_⟩
  · intro O sq breadth dp L U aL aU fu hp
    unfold branchTry
    rw [hp]
    cases dp with
    | zero =>
      rw [if_neg (by norm_num : ¬ (0 : Int) < (0 : Nat) - 1)]
    | succ d =>
      have hiff : (0 < ((d + 1 : Nat) : Int) - 1) ↔ 0 < d := by
        push_cast
        omega
      by_cases hd : 0 < d
      · rw [if_pos (hiff.mpr hd)]
        simp only [if_pos hd]
        rfl
      · rw [if_neg (fun hcon => hd (hiff.mp hcon))]
        simp only [if_neg hd]

/-- C1 amended: whenever, along the recursion, the planner call
succeeds and at least one planned branch completes without error at
every level reached (invPreserves), the invocation returns a result
containing all input learnings and visitedUrls, and moreover the full
merged accumulators of that successfully completing branch — its
inputs plus its own newly synthesized learnings and crawled source
URLs, as assembled by branchPrep — are contained in the result; a
failing branch contributes the empty result and a zero-query plan
returns the empty result, discarding the inputs. -/
theorem deepResearch_preserves (O : Oracles) :
    ∀ (depth : Nat) (query : String) (breadth : Int) (L U : List String),
    invPreserves O depth query breadth L U = true →
    ∃ r, deepResearch O depth query breadth L U = .ok r ∧
      (∀ x ∈ L, x ∈ r.learnings) ∧ (∀ u ∈ U, u ∈ r.visitedUrls) ∧
      ∃ qs sq aL aU fu,
        generateSerpQueries O query breadth L = .ok qs ∧ sq ∈ qs ∧
        branchPrep O sq breadth L U = .ok (aL, aU, fu) ∧
        (∀ x ∈ aL, x ∈ r.learnings) ∧ (∀ u ∈ aU, u ∈ r.visitedUrls) := by
  intro depth
  induction depth with
  | zero =>
    intro query breadth L U h
    rw [invPreserves] at h
    cases hq : generateSerpQueries O query breadth L with
    | error e => rw [hq] at h; simp at h
    | ok qs =>
      rw [hq] at h
      dsimp only at h
      obtain ⟨sq, hsq, hf⟩ := List.any_eq_true.mp h
      cases hp : branchPrep O sq breadth L U with
      | error e => rw [hp] at hf; simp at hf
      | ok t =>
        obtain ⟨aL, aU, fu⟩ := t
        have hbr : branchRun O sq breadth 0 L U = ⟨aL, aU⟩ := by
          rw [branchRun_eq, hp]
        have hsh := branchPrep_shape O sq breadth L U aL aU fu hp
        have memL : ∀ x ∈ aL, x ∈ jsSetDedup
            (flatMapResults (fun r => r.learnings)
              (qs.map (fun q => branchRun O q breadth 0 L U))) :=
          fun x hx => mem_jsSetDedup _ _ (mem_flatMapResults _ _
            (qs.map (fun q => branchRun O q breadth 0 L U))
            (branchRun O sq breadth 0 L U) (List.mem_map_of_mem _ hsq)
            (by rw [hbr]; exact hx))
        have memU : ∀ u ∈ aU, u ∈ jsSetDedup
            (flatMapResults (fun r => r.visitedUrls)
              (qs.map (fun q => branchRun O q breadth 0 L U))) :=
          fun u hu => mem_jsSetDedup _ _ (mem_flatMapResults _ _
            (qs.map (fun q => branchRun O q breadth 0 L U))
            (branchRun O sq breadth 0 L U) (List.mem_map_of_mem _ hsq)
            (by rw [hbr]; exact hu))
        rw [deepResearch_run, hq]
        exact ⟨_, rfl, fun x hx => memL x (hsh.1 x hx),
          fun u hu => memU u (hsh.2 u hu),
          qs, sq, aL, aU, fu, rfl, hsq, hp, memL, memU⟩
  | succ d ih =>
    intro query breadth L U h
    rw [invPreserves] at h
    cases hq : generateSerpQueries O query breadth L with
    | error e => rw [hq] at h; simp at h
    | ok qs =>
      rw [hq] at h
      dsimp only at h
      obtain ⟨sq, hsq, hf⟩ := List.any_eq_true.mp h
      cases hp : branchPrep O sq breadth L U with
      | error e => rw [hp] at hf; simp at hf
      | ok t =>
        obtain ⟨aL, aU, fu⟩ := t
        rw [hp] at hf
        dsimp only at hf
        have hsh := branchPrep_shape O sq breadth L U aL aU fu hp
        by_cases hd : 0 < d
        · rw [if_pos hd] at hf
          obtain ⟨r', hr', hLr', hUr', _⟩ :=
            ih (nextQueryString sq fu) (ceilHalf breadth) aL aU hf
          have hbr : branchRun O sq breadth (d + 1) L U = r' := by
            rw [branchRun_eq, hp]
            dsimp only
            rw [if_pos hd, hr']
          have memL : ∀ x ∈ aL, x ∈ jsSetDedup
              (flatMapResults (fun r => r.learnings)
                (qs.map (fun q => branchRun O q breadth (d + 1) L U))) :=
            fun x hx => mem_jsSetDedup _ _ (mem_flatMapResults _ _
              (qs.map (fun q => branchRun O q breadth (d + 1) L U))
              (branchRun O sq breadth (d + 1) L U) (List.mem_map_of_mem _ hsq)
              (by rw [hbr]; exact hLr' x hx))
          have memU : ∀ u ∈ aU, u ∈ jsSetDedup
              (flatMapResults (fun r => r.visitedUrls)
                (qs.map (fun q => branchRun O q breadth (d + 1) L U))) :=
            fun u hu => mem_jsSetDedup _ _ (mem_flatMapResults _ _
              (qs.map (fun q => branchRun O q breadth (d + 1) L U))
              (branchRun O sq breadth (d + 1) L U) (List.mem_map_of_mem _ hsq)
              (by rw [hbr]; exact hUr' u hu))
          rw [deepResearch_run, hq]
          exact ⟨_, rfl, fun x hx => memL x (hsh.1 x hx),
            fun u hu => memU u (hsh.2 u hu),
            qs, sq, aL, aU, fu, rfl, hsq, hp, memL, memU⟩
        · have hbr : branchRun O sq breadth (d + 1) L U = ⟨aL, aU⟩ := by
            rw [branchRun_eq, hp]
            dsimp only
            rw [if_neg hd]
          have memL : ∀ x ∈ aL, x ∈ jsSetDedup
              (flatMapResults (fun r => r.learnings)
                (qs.map (fun q => branchRun O q breadth (d + 1) L U))) :=
            fun x hx => mem_jsSetDedup _ _ (mem_flatMapResults _ _
              (qs.map (fun q => branchRun O q breadth (d + 1) L U))
              (branchRun O sq breadth (d + 1) L U) (List.mem_map_of_mem _ hsq)
              (by rw [hbr]; exact hx))
          have memU : ∀ u ∈ aU, u ∈ jsSetDedup
              (flatMapResults (fun r => r.visitedUrls)
                (qs.map (fun q => branchRun O q breadth (d + 1) L U))) :=
            fun u hu => mem_jsSetDedup _ _ (mem_flatMapResults _ _
              (qs.map (fun q => branchRun O q breadth (d + 1) L U))
              (branchRun O sq breadth (d + 1) L U) (List.mem_map_of_mem _ hsq)
              (by rw [hbr]; exact hu))
          rw [deepResearch_run, hq]
          exact ⟨_, rfl, fun x hx => memL x (hsh.1 x hx),
            fun u hu => memU u (hsh.2 u hu),
            qs, sq, aL, aU, fu, rfl, hsq, hp, memL, memU⟩

/-- Witness for deepResearch_preserves at a concrete one-branch happy
path. -/
theorem deepResearch_preserves_witness :
    ∃ r, deepResearch oracleHappy 1 "t" 2 ["a"] ["u"] = .ok r ∧
      (∀ x ∈ (["a"] : List String), x ∈ r.learnings) ∧
      (∀ u ∈ (["u"] : List String), u ∈ r.visitedUrls) ∧
      ∃ qs sq aL aU fu,
        generateSerpQueries oracleHappy "t" 2 ["a"] = .ok qs ∧ sq ∈ qs ∧
        branchPrep oracleHappy sq 2 ["a"] ["u"] = .ok (aL, aU, fu) ∧
        (∀ x ∈ aL, x ∈ r.learnings) ∧ (∀ u ∈ aU, u ∈ r.visitedUrls) :=
  deepResearch_preserves oracleHappy 1 "t" 2 ["a"] ["u"] (by rfl)

/-- Witness for childBudget_exact at concrete inputs: depth 3 with a
successful prep recurses at depth 2 with breadth ceil(2/2). -/
theorem childBudget_exact_witness :
    branchTry oracleHappy ⟨"q1", "g1"⟩ 2 3 [] [] =
      if 0 < (3 : Int) - 1 then
        deepResearch oracleHappy 2 (nextQueryString ⟨"q1", "g1"⟩ ["f1"])
          (ceilHalf 2) ["n1"] ["http://s"]
      else .ok ⟨["n1"], ["http://s"]⟩ :=
  childBudget_exact.2.2 oracleHappy ⟨"q1", "g1"⟩ 2 3 [] []
    ["n1"] ["http://s"] ["f1"] rfl

/-! ## Theorems: shell command construction -/

/-- Inside the double-quoted region a command string whose remaining
text holds no double quote is consumed into the current field, closed
by the final quote. -/
theorem shTokens_quoted (q : List Char) (hq : '"' ∉ q) :
    ∀ cur, shTokens true true cur (q ++ ['"']) = [cur ++ q] := by
  induction q with
  | nil => intro cur; simp [shTokens]
  | cons c q' ih =>
    intro cur
    have hc : c ≠ '"' := fun h => hq (h ▸ List.mem_cons_self c q')
    have hq' : '"' ∉ q' := fun h => hq (List.mem_cons_of_mem c h)
    rw [List.cons_append, shTokens, if_neg hc, ih hq' (cur ++ [c])]
    simp

/-- C10: the crawl command embeds the query unescaped inside double
quotes: a query with no double quote is passed as the single third
field, but a query containing a double quote changes the parsed field
structure of the command, and a dollar or backtick in the query
survives into the double-quoted region where the shell substitutes —
so the executed command is not a fixed function of the query treated
as data. -/
theorem crawlCommand_injection :
    (∀ q : List Char, '"' ∉ q →
      shellFields (buildCommand q) =
        ["python3".data, "duckduckgo-crawler/crawl.py".data, q]) ∧
    (∀ q : List Char, '$' ∉ q → Char.ofNat 96 ∉ q →
      substChars (buildCommand q) = []) ∧
    (shellFields (buildCommand "\"; rm x; echo \"".data) ≠
      ["python3".data, "duckduckgo-crawler/crawl.py".data,
        "\"; rm x; echo \"".data]) ∧
    (substChars (buildCommand "$(rm x)".data) ≠ []) := by
  refine ⟨fun q hq => ?_, fun q h1 h2 => ?_, by decide, by decide⟩
  · have hB : ∀ rest, shTokens false false []
        ("python3 duckduckgo-crawler/crawl.py \"".data ++ rest) =
        "python3".data :: "duckduckgo-crawler/crawl.py".data ::
          shTokens true true [] rest := fun rest => rfl
    have hsplit : buildCommand q =
        "python3 duckduckgo-crawler/crawl.py \"".data ++ (q ++ ['"']) := by
      rw [buildCommand, List.append_assoc]
    rw [shellFields, hsplit, hB (q ++ ['"']), shTokens_quoted q hq []]
    simp
  · rw [substChars, buildCommand, List.filter_append, List.filter_append]
    have hq : List.filter (fun c => c == '$' || c == Char.ofNat 96) q = [] := by
      rw [List.filter_eq_nil_iff]
      intro c hc
      simp only [Bool.or_eq_true, beq_iff_eq, not_or]
      exact ⟨fun hcon => h1 (hcon ▸ hc), fun hcon => h2 (hcon ▸ hc)⟩
    rw [hq]
    rfl

/-- Witness for crawlCommand_injection: a benign query is one data
argument. -/
theorem crawlCommand_injection_witness :
    shellFields (buildCommand "hello topic".data) =
      ["python3".data, "duckduckgo-crawler/crawl.py".data,
        "hello topic".data] :=
  crawlCommand_injection.1 "hello topic".data (by decide)

/-! ## Theorems: concurrency limiter -/

/-- Every step out of every configuration keeps the top-level limiter
occupancy within its capacity (checked over the finite state space). -/
theorem stepOk_all :
    ∀ (cfg : LimiterConfig) (a : LimiterAct), stepOk cfg a = true := by
  decide

/-- One step keeps the top-level invocation within its own limiter
capacity. -/
theorem limiterStep_preserves (cfg : LimiterConfig) (a : LimiterAct)
    (cfg' : LimiterConfig) (hstep : limiterStep cfg a = some cfg')
    (hb : parentRunning cfg ≤ ConcurrencyLimit) :
    parentRunning cfg' ≤ ConcurrencyLimit := by
  have hok := stepOk_all cfg a
  rw [stepOk, hstep] at hok
  exact of_decide_eq_true hok

/-- C2 counterexample: the trace admitting both top-level branch tasks
through the top-level pLimit(2) and then both child branch tasks
through the fresh limiters of their child invocations (while the
parents are still in flight awaiting them) is accepted, and reaches a
state with four branch tasks in flight across the call tree — more
than ConcurrencyLimit = 2. -/
theorem limiter_not_global_ce :
    runTrace initConfig
        [.startP0, .startP1, .startC0, .startC1] =
      some ⟨.running, .running, .running, .running⟩ ∧
    inFlight ⟨.running, .running, .running, .running⟩ = 4 ∧
    ConcurrencyLimit < 4 := by decide

/-- C2 amended: the limiter is per invocation, not global: along every
accepted trace from the initial state, at most ConcurrencyLimit = 2
branch tasks admitted by the own limiter of the top-level invocation are in
flight at any instant, while recursive children run under fresh
limiters so the cross-tree total can exceed 2. -/
theorem limiter_per_invocation (acts : List LimiterAct)
    (cfg : LimiterConfig) (h : runTrace initConfig acts = some cfg) :
    parentRunning cfg ≤ ConcurrencyLimit := by
  have H : ∀ (acts : List LimiterAct) (start cfg : LimiterConfig),
      runTrace start acts = some cfg →
      parentRunning start ≤ ConcurrencyLimit →
      parentRunning cfg ≤ ConcurrencyLimit := by
    intro acts
    induction acts with
    | nil =>
      intro s c hrun hs
      rw [runTrace] at hrun
      cases hrun
      exact hs
    | cons a rest ih =>
      intro s c hrun hs
      rw [runTrace] at hrun
      cases hstep : limiterStep s a with
      | none => rw [hstep] at hrun; simp at hrun
      | some s2 =>
        rw [hstep] at hrun
        exact ih s2 c hrun (limiterStep_preserves s a s2 hstep hs)
  exact H acts initConfig cfg h (by decide)

/-- Witness for limiter_per_invocation at the concrete four-start
trace. -/
theorem limiter_per_invocation_witness :
    parentRunning ⟨.running, .running, .running, .running⟩ ≤
      ConcurrencyLimit :=
  limiter_per_invocation [.startP0, .startP1, .startC0, .startC1]
    ⟨.running, .running, .running, .running⟩ (by decide)

end DeepResearchSpec
